import Mathlib

/-
Shallow embedding of the apartment-parser repository (Go) in Lean 4.

The embedded code comes from:
  - the parser package (HTML tokeniser driven extraction): Offer, ExtractorConfig,
    Selector, checkAttr, getAttr, normalizeURL, extractPrice, extractLocationAndTime,
    extractOfferWithConfig, extractOffer, ParseHtml, ParseOffer, parseOlxOffer,
    parseOtodomOffer, parseOtodomImages;
  - the database package: OfferExists, AddOffer, Search;
  - the telegrambot package polling loop: processAllOffersFromSearch, parseOffers.

Modelling conventions:
  - The golang.org/x/net/html tokeniser is external; a page is modelled as the
    list of tokens the tokeniser produces for it (ErrorToken = end of list).
    Network fetches (parser.FetchHTMLPage composed with html.NewTokenizer) are an
    oracle of type String -> Option (List Token); none models a fetch error
    (connection failure or a non-200 status).
  - encoding/json decoding is external; a decode oracle String -> Option Json
    stands for json.Decoder.Decode into map[string]interface cast chains, where
    none models a decode error (malformed document, or a top level that is not an
    object, both of which make Decode into a Go map return an error).
  - A Go panic (failed type assertion, or an explicit panic(err) call) is the
    PResult.panicked outcome; a value returned normally is PResult.ok.
  - Go strings are Lean Strings; Go byte-level operations used by the code
    (len, s[:7]) only ever compare against ASCII literals, where byte-prefix
    equality coincides with character-prefix equality (noted at each use).
  - The sqlite offers store is the list of inserted rows, in insertion order; the
    SQL EXISTS query of OfferExists is the corresponding list scan.
-/

namespace ApartmentParser

/-! ## HTML token model -/

/-- One attribute of an HTML tag, as in golang.org/x/net/html.Attribute. -/
structure HtmlAttr where
  key : String
  val : String
deriving DecidableEq

/-- One token of the html.Tokenizer stream.  The tokeniser's ErrorToken
(end of document) is represented by the end of the token list. -/
inductive Token where
  | startTag (name : String) (attrs : List HtmlAttr)
  | endTag (name : String)
  | selfClosing (name : String) (attrs : List HtmlAttr)
  | text (data : String)
deriving DecidableEq

/-- Go: checkAttr(attrs, key, value) - is the (key, value) attribute present. -/
def checkAttr (attrs : List HtmlAttr) (key value : String) : Bool :=
  attrs.any (fun attr => attr.key == key && attr.val == value)

/-- Go: getAttr(attrs, key) - value of the first attribute named key, else "". -/
def getAttr (attrs : List HtmlAttr) (key : String) : String :=
  match attrs.find? (fun attr => attr.key == key) with
  | some attr => attr.val
  | none => ""

/-! ## Go string primitives used by the parser -/

/-- Go strings.HasPrefix. -/
def listStartsWith : List Char → List Char → Bool
  | [], _ => true
  | _ :: _, [] => false
  | p :: ps, c :: cs => p == c && listStartsWith ps cs

/-- Go strings.HasPrefix on strings. -/
def goHasPre (s pre : String) : Bool :=
  listStartsWith pre.toList s.toList

/-- Go strings.Contains, on character lists. -/
def listContains (pat : List Char) : List Char → Bool
  | [] => listStartsWith pat []
  | c :: cs => listStartsWith pat (c :: cs) || listContains pat cs

/-- Character class trimmed by Go strings.TrimSpace (unicode.IsSpace); the
inputs in scope are Latin-1, so the Latin-1 space set is exact here. -/
def isGoSpace (c : Char) : Bool :=
  c == ' ' || c == '\t' || c == '\n' || c == '\r' ||
  c == '\x0b' || c == '\x0c' || c == '\u0085' || c == '\u00A0'

/-- Go strings.TrimSpace. -/
def goTrimSpace (s : String) : String :=
  String.mk (((s.toList.dropWhile isGoSpace).reverse.dropWhile isGoSpace).reverse)

/-- Go strings.ReplaceAll(s, string(c), "") for a single-character pattern. -/
def removeChar (s : String) (c : Char) : String :=
  String.mk (s.toList.filter (fun x => x ≠ c))

/-- Go strings.TrimSuffix (the suffixes used are single ASCII characters). -/
def goTrimSuf (s suffix : String) : String :=
  if suffix.toList.isSuffixOf s.toList then s.dropRight suffix.length else s

/-- Digit value of an ASCII digit character. -/
def digitVal (c : Char) : Nat := c.toNat - 48

/-- Numeric value of a list of ASCII digit characters, most significant first. -/
def digitsToNat : List Char → Nat → Nat
  | [], acc => acc
  | c :: cs, acc => digitsToNat cs (acc * 10 + digitVal c)

/-- Largest int64, the range checked by Go strconv.Atoi on a 64-bit platform. -/
def maxInt64 : Nat := 9223372036854775807

/-- Go strconv.Atoi restricted to the strings it is fed here (possibly empty
strings of ASCII digits): none on the empty string, on a non-digit character,
or on int64 overflow. -/
def goAtoi (s : String) : Option Int :=
  if s.toList = [] then none
  else if s.toList.all Char.isDigit then
    let n := digitsToNat s.toList 0
    if n ≤ maxInt64 then some (n : Int) else none
  else none

/-- All maximal runs of ASCII digits, in order: Go
regexp.MustCompile(d+).FindAllString(s, -1) (with d+ the digit pattern). -/
def digitRunsAux : List Char → List Char → List String
  | [], acc => if acc = [] then [] else [String.mk acc.reverse]
  | c :: cs, acc =>
    if c.isDigit then digitRunsAux cs (c :: acc)
    else if acc = [] then digitRunsAux cs []
    else String.mk acc.reverse :: digitRunsAux cs []

/-- FindAllString for the digit pattern, on a string. -/
def digitRuns (s : String) : List String :=
  digitRunsAux s.toList []

/-- First maximal run of ASCII digits: Go FindString for the digit pattern. -/
def firstDigitRun (s : String) : String :=
  match digitRuns s with
  | [] => ""
  | r :: _ => r

/-- Go strings.Split(s, " - "), the literal separator used by
extractLocationAndTime; greedy left-to-right on non-overlapping occurrences. -/
def splitDashAux : List Char → List Char → List String
  | [], acc => [String.mk acc.reverse]
  | ' ' :: '-' :: ' ' :: rest, acc => String.mk acc.reverse :: splitDashAux rest []
  | c :: rest, acc => splitDashAux rest (c :: acc)

/-- strings.Split(text, " - ") as used in extractLocationAndTime. -/
def splitOnDash (s : String) : List String :=
  splitDashAux s.toList []

/-! ## Offer and configuration -/

/-- parser.Offer (the variant with integer Price and an image list). -/
structure Offer where
  title : String := ""
  price : Int := 0
  location : String := ""
  time : String := ""
  url : String := ""
  additionalPayment : Int := 0
  description : String := ""
  rooms : String := ""
  area : String := ""
  floor : String := ""
  images : List String := []
deriving DecidableEq

/-- The zero Offer value, Go Offer{}. -/
def emptyOffer : Offer := {}

/-- parser.Selector - how to find an element (the Attribute and Value fields
are spelled attrName and attrValue, Attribute being reserved in Lean). -/
structure Selector where
  tag : String
  attrName : String
  attrValue : String
deriving DecidableEq

/-- parser.ExtractorConfig.  The regular expression fields are fixed across the
profiles used (PricePattern is the digit-run pattern, embedded in extractPrice;
TimePattern is the two-digit clock pattern, embedded in findTimeMatch;
DatePattern is never read by the extraction code and is omitted).  The
time.Duration offset is carried in minutes. -/
structure ExtractorConfig where
  titleSelector : Selector
  priceSelector : Selector
  locationSelector : Selector
  urlSelector : Selector
  todayKeyword : String
  baseURL : String
  timezoneOffsetMinutes : Int
deriving DecidableEq

/-- parser.OLXConfig (TimezoneOffset 2h = 120 minutes). -/
def OLXConfig : ExtractorConfig where
  titleSelector := ⟨"h4", "", ""⟩
  priceSelector := ⟨"p", "data-testid", "ad-price"⟩
  locationSelector := ⟨"p", "data-testid", "location-date"⟩
  urlSelector := ⟨"a", "href", ""⟩
  todayKeyword := "Dzisiaj"
  baseURL := "https://www.olx.pl"
  timezoneOffsetMinutes := 120

/-- Go matchesSelector(token, selector). -/
def matchesSelector (name : String) (attrs : List HtmlAttr) (sel : Selector) : Bool :=
  if sel.tag ≠ "" && name ≠ sel.tag then false
  else if sel.attrName ≠ "" && sel.attrValue ≠ "" then checkAttr attrs sel.attrName sel.attrValue
  else sel.tag == name

/-! ## Field helpers: normalizeURL, extractPrice, extractLocationAndTime -/

/-- Go normalizeURL(url, baseURL). -/
def normalizeURL (url baseURL : String) : String :=
  if goHasPre url "/" then baseURL ++ url
  else if !goHasPre url "http" then baseURL ++ "/" ++ url
  else url

/-- Go extractPrice(text, pattern) for the profiles' digit pattern: strip plain
and non-breaking spaces, take all digit runs, join them, Atoi; 0 when no run is
found or Atoi fails. -/
def extractPrice (text : String) : Int :=
  let t1 := removeChar text ' '
  let t2 := removeChar t1 '\u00A0'
  let ms := digitRuns t2
  if ms.length > 0 then
    match goAtoi (String.join ms) with
    | some price => price
    | none => 0
  else 0

/-- Leftmost match of the clock pattern (two digits, colon, two digits): Go
config.TimePattern.FindStringSubmatch, first entry. -/
def findTimeMatch : List Char → Option String
  | c0 :: c1 :: c2 :: c3 :: c4 :: rest =>
    if c0.isDigit && c1.isDigit && c2 == ':' && c3.isDigit && c4.isDigit then
      some (String.mk [c0, c1, c2, c3, c4])
    else findTimeMatch (c1 :: c2 :: c3 :: c4 :: rest)
  | _ => none

/-- Go time.Parse("15:04", s) on a clock-pattern match: hour 00..23 and
minute 00..59, anything else is a parse error. -/
def goParseClock (s : String) : Option (Nat × Nat) :=
  match s.toList with
  | [h1, h2, ':', m1, m2] =>
    if h1.isDigit && h2.isDigit && m1.isDigit && m2.isDigit then
      let hh := digitVal h1 * 10 + digitVal h2
      let mm := digitVal m1 * 10 + digitVal m2
      if hh ≤ 23 && mm ≤ 59 then some (hh, mm) else none
    else none
  | _ => none

/-- Two-digit zero-padded rendering of a value 0..99, as in the "15:04" layout. -/
def pad2 (n : Nat) : String :=
  String.mk [Char.ofNat (48 + n / 10), Char.ofNat (48 + n % 10)]

/-- Go t.Add(offset) followed by t.Format("15:04"): minutes within the day after
adding the configured offset, rendered as HH:MM. -/
def addOffsetAndFormat (hh mm : Nat) (offsetMinutes : Int) : String :=
  let total := (((hh * 60 + mm : Nat) : Int) + offsetMinutes).emod 1440
  let t := total.toNat
  pad2 (t / 60) ++ ":" ++ pad2 (t % 60)

/-- Go extractLocationAndTime(text, config). -/
def extractLocationAndTime (text : String) (config : ExtractorConfig) : String × String :=
  let parts := splitOnDash text
  if parts.length ≥ 2 then
    let location := goTrimSpace (parts.getD 0 "")
    let dateTimeStr := goTrimSpace (parts.getD 1 "")
    if !listContains config.todayKeyword.toList dateTimeStr.toList then (location, "")
    else
      match findTimeMatch dateTimeStr.toList with
      | some m =>
        match goParseClock m with
        | some (hh, mm) => (location, addOffsetAndFormat hh mm config.timezoneOffsetMinutes)
        | none => (location, "")
      | none => (location, "")
  else (text, "")

/-! ## Listing-card extraction: extractOfferWithConfig -/

/-- Go extractOfferWithConfig, anchor start-tag step: on an a tag, if a non-empty
href is present and no URL has been recorded, record the normalised href. -/
def updateAnchorUrl (config : ExtractorConfig) (offer : Offer) (attrs : List HtmlAttr) : Offer :=
  let url := getAttr attrs "href"
  if url ≠ "" && offer.url == "" then { offer with url := normalizeURL url config.baseURL }
  else offer

/-- Go extractOfferWithConfig, context transition on a start tag: adopt a
data-cy or data-testid attribute value as context, then let the specific
selectors override (price, then location, then title-inside-a-link). -/
def nextContext (config : ExtractorConfig) (ctx : String) (name : String)
    (attrs : List HtmlAttr) (isInLink : Bool) : String :=
  let ctx1 := match getAttr attrs "data-cy" with
    | "" => ctx
    | attr => attr
  let ctx2 := match getAttr attrs "data-testid" with
    | "" => ctx1
    | attr => attr
  if matchesSelector name attrs config.priceSelector then "price"
  else if matchesSelector name attrs config.locationSelector then "location-date"
  else if matchesSelector name attrs config.titleSelector && isInLink then "title"
  else ctx2

/-- Go extractOfferWithConfig, text-token step: assign the trimmed text to the
field selected by the current context, first match winning per field. -/
def applyTextToken (config : ExtractorConfig) (offer : Offer) (ctx txt : String) : Offer :=
  match ctx with
  | "title" => if offer.title == "" then { offer with title := txt } else offer
  | "price" | "ad-price" =>
    let price := extractPrice txt
    if price > 0 then { offer with price := price } else offer
  | "location-date" =>
    let lt := extractLocationAndTime txt config
    let offer1 := if offer.location == "" && lt.1 ≠ "" then { offer with location := lt.1 } else offer
    if offer1.time == "" && lt.2 ≠ "" then { offer1 with time := lt.2 } else offer1
  | _ => offer

/-- Go extractOfferWithConfig, main token loop.  State: current offer, current
semantic context, whether the walk is inside an anchor, and the (write-only)
nesting depth.  End of document with an empty URL yields the discard sentinel. -/
def extractLoop (config : ExtractorConfig) :
    List Token → Offer → String → Bool → Int → Offer
  | [], offer, _, _, _ => if offer.url == "" then emptyOffer else offer
  | Token.startTag name attrs :: rest, offer, ctx, isInLink, depth =>
    let isInLink2 := if name == "a" then true else isInLink
    let offer2 := if name == "a" then updateAnchorUrl config offer attrs else offer
    let ctx2 := nextContext config ctx name attrs isInLink2
    extractLoop config rest offer2 ctx2 isInLink2 (depth + 1)
  | Token.endTag name :: rest, offer, ctx, isInLink, depth =>
    let isInLink2 := if name == "a" then false else isInLink
    extractLoop config rest offer ctx isInLink2 (depth - 1)
  | Token.selfClosing _ _ :: rest, offer, ctx, isInLink, depth =>
    extractLoop config rest offer ctx isInLink depth
  | Token.text data :: rest, offer, ctx, isInLink, depth =>
    let txt := goTrimSpace data
    if txt == "" then extractLoop config rest offer ctx isInLink depth
    else extractLoop config rest (applyTextToken config offer ctx txt) ctx isInLink depth

/-- The featured-ad marker scanned for by extractOfferWithConfig. -/
def featuredMarker : String := "Wyróżnione"

/-- Go strings.Contains(text, marker) on the re-serialised fragment, modelled on
the token list: the marker occurs in the serialisation exactly when it occurs in
one token's tag name, attribute key or value, or text (it contains no characters
escaped by the serialiser, and token serialisations cannot straddle it). -/
def tokenHoldsFeatured : Token → Bool
  | Token.startTag name attrs =>
    listContains featuredMarker.toList name.toList ||
      attrs.any (fun attr => listContains featuredMarker.toList attr.key.toList ||
        listContains featuredMarker.toList attr.val.toList)
  | Token.selfClosing name attrs =>
    listContains featuredMarker.toList name.toList ||
      attrs.any (fun attr => listContains featuredMarker.toList attr.key.toList ||
        listContains featuredMarker.toList attr.val.toList)
  | Token.endTag name => listContains featuredMarker.toList name.toList
  | Token.text data => listContains featuredMarker.toList data.toList

/-- Go extractOfferWithConfig(text, config), over the fragment's token list. -/
def extractOfferWithConfig (frag : List Token) (config : ExtractorConfig) : Offer :=
  if frag.any tokenHoldsFeatured then emptyOffer
  else extractLoop config frag emptyOffer "" false 0

/-- Go extractOffer(text) = extractOfferWithConfig(text, OLXConfig). -/
def extractOffer (frag : List Token) : Offer :=
  extractOfferWithConfig frag OLXConfig

/-! ## Page segmentation: ParseHtml -/

/-- The class marking a listing card container (Go offerSeparator). -/
def offerSeparator : String := "css-1sw7q4x"

/-- Go ParseHtml, main token loop.  State: inside-a-fragment flag, the tokens
accumulated for the current fragment (Go re-serialises them into a string and
extractOffer re-tokenises it; the round trip is modelled as the identity on the
token list), div nesting depth, offers collected so far. -/
def parseHtmlLoop : List Token → Bool → List Token → Int → List Offer → List Offer
  | [], _, _, _, offers => offers
  | Token.startTag name attrs :: rest, isOffer, content, depth, offers =>
    if !isOffer then
      if name == "div" then
        parseHtmlLoop rest (checkAttr attrs "class" offerSeparator) content depth offers
      else parseHtmlLoop rest isOffer content depth offers
    else
      let depth2 := if name == "div" then depth + 1 else depth
      parseHtmlLoop rest isOffer (content ++ [Token.startTag name attrs]) depth2 offers
  | Token.endTag name :: rest, isOffer, content, depth, offers =>
    if isOffer && name == "div" && depth == 0 then
      let offer := extractOffer content
      let offers2 := if offer.title ≠ "" then offers ++ [offer] else offers
      parseHtmlLoop rest false [] 0 offers2
    else if isOffer then
      let depth2 := if name == "div" then depth - 1 else depth
      parseHtmlLoop rest isOffer (content ++ [Token.endTag name]) depth2 offers
    else parseHtmlLoop rest isOffer content depth offers
  | tok :: rest, isOffer, content, depth, offers =>
    if isOffer then parseHtmlLoop rest isOffer (content ++ [tok]) depth offers
    else parseHtmlLoop rest isOffer content depth offers

/-- Go ParseHtml(text), over the page's token list. -/
def ParseHtml (page : List Token) : List Offer :=
  parseHtmlLoop page false [] 0 []

/-! ## JSON model and parseOtodomImages -/

/-- A decoded JSON document, the value produced by encoding/json for an
interface value (numbers play no role on the path walked here). -/
inductive Json where
  | null
  | bool (b : Bool)
  | num (n : Int)
  | str (s : String)
  | arr (items : List Json)
  | obj (fields : List (String × Json))

/-- Outcome of a Go computation that can panic: a normal return value or a
runtime panic (failed type assertion, explicit panic call). -/
inductive PResult (α : Type) where
  | ok (a : α)
  | panicked
deriving DecidableEq

/-- Outcome of the image sub-step: a value, a returned error, or a panic. -/
inductive ImagesResult where
  | ok (images : List String)
  | err (msg : String)
  | panicked
deriving DecidableEq

/-- Go map lookup data[k] on a decoded JSON object: nil interface if absent. -/
def jsonLookup (fields : List (String × Json)) (k : String) : Option Json :=
  match fields.find? (fun field => field.1 == k) with
  | some field => some field.2
  | none => none

/-- Go type assertion v.(map[string]interface): panics unless v is a present
JSON object (asserting on an absent key's nil interface also panics). -/
def assertObj : Option Json → PResult (List (String × Json))
  | some (Json.obj fields) => PResult.ok fields
  | _ => PResult.panicked

/-- Go type assertion v.([]interface): panics unless v is a present JSON array. -/
def assertArr : Option Json → PResult (List Json)
  | some (Json.arr items) => PResult.ok items
  | _ => PResult.panicked

/-- Go type assertion v.(string): panics unless v is a present JSON string. -/
def assertStr : Option Json → PResult String
  | some (Json.str s) => PResult.ok s
  | _ => PResult.panicked

/-- The per-image step of parseOtodomImages:
image.(map[string]interface)["large"].(string) for each entry. -/
def collectLargeImages : List Json → PResult (List String)
  | [] => PResult.ok []
  | image :: rest =>
    match assertObj (some image) with
    | PResult.panicked => PResult.panicked
    | PResult.ok imageFields =>
      match assertStr (jsonLookup imageFields "large") with
      | PResult.panicked => PResult.panicked
      | PResult.ok large =>
        match collectLargeImages rest with
        | PResult.panicked => PResult.panicked
        | PResult.ok rest2 => PResult.ok (large :: rest2)

/-- Go parseOtodomImages(json_string), over the already-decoded document (the
decoding itself is the external encoding/json library).  none stands for a
Decode error - a malformed document or a top level that is not an object - and
is returned as an explicit error.  A document that decodes but lacks the
props -> pageProps -> ad -> images path (or holds other types there) hits an
unchecked type assertion and panics. -/
def parseOtodomImages (decoded : Option Json) : ImagesResult :=
  match decoded with
  | none => ImagesResult.err "json decode error"
  | some doc =>
    match doc with
    | Json.obj data =>
      match assertObj (jsonLookup data "props") with
      | PResult.panicked => ImagesResult.panicked
      | PResult.ok props =>
        match assertObj (jsonLookup props "pageProps") with
        | PResult.panicked => ImagesResult.panicked
        | PResult.ok pageProps =>
          match assertObj (jsonLookup pageProps "ad") with
          | PResult.panicked => ImagesResult.panicked
          | PResult.ok ad =>
            match assertArr (jsonLookup ad "images") with
            | PResult.panicked => ImagesResult.panicked
            | PResult.ok imagesData =>
              match collectLargeImages imagesData with
              | PResult.panicked => ImagesResult.panicked
              | PResult.ok images => ImagesResult.ok images
    | _ => ImagesResult.err "json decode error"

/-! ## Detail enrichment: parseOlxOffer, parseOtodomOffer, ParseOffer -/

/-- Go parseOlxOffer, Czynsz branch: strip spaces, take the first digit run
(FindString), Atoi it; the field ends up 0 whenever Atoi fails (the
intermediate assignment of 0 on an empty run is overwritten by the Atoi
result, whose error case also writes 0). -/
def olxCzynsz (data : String) : Int :=
  let d1 := removeChar data ' '
  let d2 := firstDigitRun d1
  match goAtoi d2 with
  | some v => v
  | none => 0

/-- Go parseOlxOffer, tag-paragraph text routing by leading keyword. -/
def olxTextRoute (offer : Offer) (data : String) : Offer :=
  if goHasPre data "Czynsz" then { offer with additionalPayment := olxCzynsz data }
  else if goHasPre data "Liczba pokoi" then { offer with rooms := offer.rooms ++ data }
  else if goHasPre data "Powierzchnia" then { offer with area := offer.area ++ data }
  else if goHasPre data "Poziom" then { offer with floor := offer.floor ++ data }
  else offer

/-- Go parseOlxOffer, main token loop.  State: isDescription, isTag. -/
def olxLoop : List Token → Offer → Bool → Bool → Offer
  | [], offer, _, _ => offer
  | Token.startTag name attrs :: rest, offer, isDescription, isTag =>
    let isDescription2 := if name == "div" then checkAttr attrs "class" "css-19duwlz" else isDescription
    let isTag2 := if name == "p" then checkAttr attrs "class" "css-5l1a1j" else isTag
    olxLoop rest offer isDescription2 isTag2
  | Token.text data :: rest, offer, isDescription, isTag =>
    if isDescription then olxLoop rest { offer with description := offer.description ++ data } isDescription isTag
    else if isTag then olxLoop rest (olxTextRoute offer data) isDescription isTag
    else olxLoop rest offer isDescription isTag
  | Token.endTag name :: rest, offer, isDescription, isTag =>
    if name == "div" && isDescription then olxLoop rest offer false isTag
    else if name == "p" && isTag then olxLoop rest offer isDescription false
    else olxLoop rest offer isDescription isTag
  | Token.selfClosing name attrs :: rest, offer, isDescription, isTag =>
    if name == "img" && checkAttr attrs "class" "css-1bmvjcs" then
      olxLoop rest { offer with images := offer.images ++ [getAttr attrs "src"] } isDescription isTag
    else olxLoop rest offer isDescription isTag

/-- Go parseOlxOffer(offer): a fetch error is logged and the offer returned
unchanged; otherwise the detail page's tokens are scanned. -/
def parseOlxOffer (fetched : Option (List Token)) (offer : Offer) : Offer :=
  match fetched with
  | none => offer
  | some toks => olxLoop toks offer false false

/-- Go parseOtodomOffer, labelled-table value routing by the current tag. -/
def otodomTagUpdate (offer : Offer) (currentTag text : String) : Offer :=
  match currentTag with
  | "Powierzchnia" => { offer with area := currentTag ++ ": " ++ text }
  | "Liczba pokoi" => { offer with rooms := currentTag ++ ": " ++ text }
  | "Piętro" => { offer with floor := currentTag ++ ": " ++ text }
  | "Czynsz" =>
    let val := removeChar text ' '
    let val2 := firstDigitRun val
    match goAtoi val2 with
    | some v => { offer with additionalPayment := v }
    | none => offer
  | _ => offer

/-- Go parseOtodomOffer, text-token step for the label and value state: a
label paragraph's text becomes the current tag (colon stripped); a value
paragraph's text is routed by the current tag; otherwise nothing changes.
Returns the updated offer, current tag, isTagLabel and isTagValue. -/
def otodomTextState (offer : Offer) (currentTag : String) (isTagLabel isTagValue : Bool)
    (text : String) : Offer × String × Bool × Bool :=
  if isTagLabel then (offer, goTrimSuf text ":", false, isTagValue)
  else if isTagValue && currentTag ≠ "" then
    (otodomTagUpdate offer currentTag text, "", isTagLabel, false)
  else (offer, currentTag, isTagLabel, isTagValue)

/-- Go parseOtodomOffer, main token loop.  State: isDescription, isJson,
currentTag, isTagLabel, isTagValue, jsonText.  The end of a script element
runs parseOtodomImages on the accumulated text: a returned error is logged
(and the Images field receives the nil slice that accompanies it); a panic
aborts the whole call. -/
def otodomLoop (decode : String → Option Json) :
    List Token → Offer → Bool → Bool → String → Bool → Bool → String → PResult Offer
  | [], offer, _, _, _, _, _, _ => PResult.ok offer
  | Token.startTag name attrs :: rest, offer, _, _, currentTag, isTagLabel, isTagValue, jsonText =>
    let labelValue :=
      if name == "p" && getAttr attrs "class" == "e1wd2yzk2 css-1airkmu" then
        if getAttr attrs "data-sentry-element" == "Item" then (true, isTagValue)
        else (isTagLabel, true)
      else (isTagLabel, isTagValue)
    let isDescription2 := getAttr attrs "data-cy" == "adPageAdDescription"
    let isJson2 := name == "script" && checkAttr attrs "type" "application/json"
    otodomLoop decode rest offer isDescription2 isJson2 currentTag labelValue.1 labelValue.2 jsonText
  | Token.text raw :: rest, offer, isDescription, isJson, currentTag, isTagLabel, isTagValue, jsonText =>
    let text := goTrimSpace raw
    let step := otodomTextState offer currentTag isTagLabel isTagValue text
    let offer3 :=
      if isDescription then { step.1 with description := step.1.description ++ text ++ "\n" }
      else step.1
    let jsonText2 := if isJson then jsonText ++ text else jsonText
    otodomLoop decode rest offer3 isDescription isJson step.2.1 step.2.2.1 step.2.2.2 jsonText2
  | Token.endTag name :: rest, offer, isDescription, isJson, currentTag, isTagLabel, isTagValue, jsonText =>
    if name == "script" && isJson then
      match parseOtodomImages (decode jsonText) with
      | ImagesResult.panicked => PResult.panicked
      | ImagesResult.ok images =>
        otodomLoop decode rest { offer with images := images } isDescription false currentTag isTagLabel isTagValue jsonText
      | ImagesResult.err _ =>
        otodomLoop decode rest { offer with images := [] } isDescription false currentTag isTagLabel isTagValue jsonText
    else if name == "div" && isDescription then
      let offer2 := if offer.description ≠ "" then { offer with description := goTrimSuf offer.description "\n" } else offer
      otodomLoop decode rest offer2 false isJson currentTag isTagLabel isTagValue jsonText
    else otodomLoop decode rest offer isDescription isJson currentTag isTagLabel isTagValue jsonText
  | Token.selfClosing _ _ :: rest, offer, isDescription, isJson, currentTag, isTagLabel, isTagValue, jsonText =>
    otodomLoop decode rest offer isDescription isJson currentTag isTagLabel isTagValue jsonText

/-- Go parseOtodomOffer(offer): a fetch error is logged and the offer returned
unchanged; otherwise the detail page's tokens are scanned. -/
def parseOtodomOffer (fetched : Option (List Token)) (decode : String → Option Json)
    (offer : Offer) : PResult Offer :=
  match fetched with
  | none => PResult.ok offer
  | some toks => otodomLoop decode toks offer false false "" false false ""

/-- Go ParseOffer(offer): two-site dispatch on the URL prefix; any other host
falls through and the offer is returned unchanged. -/
def ParseOffer (fetch : String → Option (List Token)) (decode : String → Option Json)
    (offer : Offer) : PResult Offer :=
  if goHasPre offer.url "https://www.olx.pl" then
    PResult.ok (parseOlxOffer (fetch offer.url) offer)
  else if goHasPre offer.url "https://www.otodom.pl" then
    parseOtodomOffer (fetch offer.url) decode offer
  else PResult.ok offer

/-! ## Offer store: OfferExists, AddOffer -/

/-- The offers table: the rows inserted so far, in insertion order.  A row
keeps the stored offer and the user_id column it was stored under. -/
structure OffersDB where
  rows : List (Offer × Int)
deriving DecidableEq

/-- The WHERE clause of the OfferExists query: same title, price and user_id. -/
def offerMatchesRow (offer : Offer) (userID : Int) (row : Offer × Int) : Bool :=
  row.1.title == offer.title && row.1.price == offer.price && row.2 == userID

/-- Go database.OfferExists(db, offer, userID): the SQL EXISTS query on
(title, price, user_id). -/
def OfferExists (db : OffersDB) (offer : Offer) (userID : Int) : Bool :=
  db.rows.any (offerMatchesRow offer userID)

/-- Go database.AddOffer(db, offer, userID): no-op when OfferExists, else
INSERT a new row. -/
def AddOffer (db : OffersDB) (offer : Offer) (userID : Int) : OffersDB :=
  if OfferExists db offer userID then db
  else ⟨db.rows ++ [(offer, userID)]⟩

/-! ## Polling pipeline: processAllOffersFromSearch, parseOffers -/

/-- database.Search: id, owning user id, listing-page URL. -/
structure Search where
  id : Int
  userID : Int
  url : String
deriving DecidableEq

/-- The notification guard in processAllOffersFromSearch:
len(offer.Time) > 7 && offer.Time[:7] == "Dzisiaj".  Both operate on bytes;
the literal is 7 ASCII bytes, so the byte slice equals it exactly when the
first 7 characters do. -/
def notifyGuard (t : String) : Bool :=
  decide (7 < t.utf8ByteSize) && decide (t.toList.take 7 = "Dzisiaj".toList)

/-- Go processAllOffersFromSearch, per-offer loop.  For each extracted offer:
check existence by (title, price, user id); if absent, enrich through
ParseOffer (propagating its panic), AddOffer the enriched offer, and send it
to the user when the notification guard passes.  The sent accumulator lists
the (offer, user id) pairs handed to sendOfferToUser, in order. -/
def processOffersLoop (fetch : String → Option (List Token)) (decode : String → Option Json)
    (userID : Int) :
    List Offer → OffersDB → List (Offer × Int) → PResult (OffersDB × List (Offer × Int))
  | [], db, sent => PResult.ok (db, sent)
  | offer :: rest, db, sent =>
    if OfferExists db offer userID then processOffersLoop fetch decode userID rest db sent
    else
      match ParseOffer fetch decode offer with
      | PResult.panicked => PResult.panicked
      | PResult.ok enriched =>
        let db2 := AddOffer db enriched userID
        if notifyGuard enriched.time then
          processOffersLoop fetch decode userID rest db2 (sent ++ [(enriched, userID)])
        else processOffersLoop fetch decode userID rest db2 sent

/-- Go processAllOffersFromSearch(bot, search, offers_db): fetch the listing
page - a fetch error hits panic(err) - then segment, extract and run the
per-offer loop. -/
def processAllOffersFromSearch (fetch : String → Option (List Token))
    (decode : String → Option Json) (search : Search) (db : OffersDB) :
    PResult (OffersDB × List (Offer × Int)) :=
  match fetch search.url with
  | none => PResult.panicked
  | some page => processOffersLoop fetch decode search.userID (ParseHtml page) db []

/-- One sweep of the Go parseOffers loop body: processAllOffersFromSearch for
every registered search in order; a panic in one search aborts the sweep (and
with it the polling goroutine), leaving the remaining searches unprocessed. -/
def parseOffersSweep (fetch : String → Option (List Token)) (decode : String → Option Json) :
    List Search → OffersDB → PResult (OffersDB × List (Offer × Int))
  | [], db => PResult.ok (db, [])
  | search :: rest, db =>
    match processAllOffersFromSearch fetch decode search db with
    | PResult.panicked => PResult.panicked
    | PResult.ok (db2, sent) =>
      match parseOffersSweep fetch decode rest db2 with
      | PResult.panicked => PResult.panicked
      | PResult.ok (db3, sent2) => PResult.ok (db3, sent ++ sent2)

/-! ## Concrete scenario used by witnesses and counterexamples -/

/-- A one-card OLX listing page (token stream), with title, price,
location-date and a root-relative link. -/
def cListingPage : List Token := [
  Token.startTag "div" [⟨"class", "css-1sw7q4x"⟩],
  Token.startTag "a" [⟨"href", "/x.html"⟩],
  Token.startTag "h4" [],
  Token.text "Kawalerka testowa",
  Token.endTag "h4",
  Token.endTag "a",
  Token.startTag "p" [⟨"data-testid", "ad-price"⟩],
  Token.text "1 700 zł",
  Token.endTag "p",
  Token.startTag "p" [⟨"data-testid", "location-date"⟩],
  Token.text "Szczecin - Dzisiaj o 14:30",
  Token.endTag "p",
  Token.endTag "div"]

/-- The OLX detail page for the card above: one marked image tag. -/
def cDetailPage : List Token :=
  [Token.selfClosing "img" [⟨"class", "css-1bmvjcs"⟩, ⟨"src", "https://img.example/1.jpg"⟩]]

/-- Fetch oracle: the search URL resolves to the listing page, the offer URL to
the detail page, anything else fails. -/
def cFetch : String → Option (List Token) := fun u =>
  if u == "https://search.example/page1" then some cListingPage
  else if u == "https://www.olx.pl/x.html" then some cDetailPage
  else none

/-- Decode oracle for the scenario: no JSON is ever decoded on the OLX path. -/
def cDecode : String → Option Json := fun _ => none

/-- The registered search owning the scenario's listing page. -/
def cSearch : Search := ⟨1, 7, "https://search.example/page1"⟩

/-- The offer as extracted from the listing page. -/
def cRawOffer : Offer :=
  { title := "Kawalerka testowa", price := 1700, location := "Szczecin",
    time := "16:30", url := "https://www.olx.pl/x.html" }

/-- The offer after detail enrichment (the image list filled in). -/
def cEnrichedOffer : Offer :=
  { cRawOffer with images := ["https://img.example/1.jpg"] }

/-- The store after one pass over the scenario's page, starting empty. -/
def cDbAfter : OffersDB := ⟨[(cEnrichedOffer, 7)]⟩

/-! ## Helper lemmas -/

theorem toList_mk (l : List Char) : (String.mk l).toList = l := rfl

theorem digitRunsAux_nil_of_no_digits :
    ∀ l : List Char, (∀ c ∈ l, c.isDigit = false) → digitRunsAux l [] = [] := by
  intro l h
  induction l with
  | nil => rfl
  | cons c cs ih =>
    have hc : c.isDigit = false := h c (List.mem_cons_self c cs)
    simp only [digitRunsAux, hc, if_pos rfl, Bool.false_eq_true, if_false]
    exact ih (fun x hx => h x (List.mem_cons_of_mem c hx))

theorem removeChar_self (s : String) (c : Char) :
    removeChar (removeChar s c) c = removeChar s c := by
  simp only [removeChar, toList_mk, List.filter_filter]
  congr 1
  apply List.filter_congr
  intro x _
  simp [Bool.and_self]

/-! ## Claim 5: extractPrice -/

/-- C5: extractPrice strips plain and non-breaking spaces, concatenates the
digit runs in order and parses them base 10, yielding 0 when no digit occurs;
in particular the digit-free characters are irrelevant (a price text with all
plain spaces already removed extracts the same price), no-digit inputs give 0,
and the spec's three examples hold. -/
theorem claim5_extract_price :
    extractPrice "1 700 zł" = 1700 ∧
    extractPrice "2\u00A0000 PLN" = 2000 ∧
    extractPrice "Contact for price" = 0 ∧
    (∀ s : String, (∀ c ∈ s.toList, c.isDigit = false) → extractPrice s = 0) ∧
    (∀ s : String, extractPrice (removeChar s ' ') = extractPrice s) := by
  refine ⟨by decide, by decide, by decide, ?_, ?_⟩
  · intro s h
    have hruns : digitRuns (removeChar (removeChar s ' ') ' ') = [] := by
      apply digitRunsAux_nil_of_no_digits
      intro c hc
      simp only [removeChar, toList_mk, List.mem_filter] at hc
      exact h c hc.1.1
    simp [extractPrice, hruns]
  · intro s
    simp only [extractPrice, removeChar_self]

/-- C5 witness: the no-digit branch of the claim at a concrete input. -/
theorem claim5_witness : extractPrice "brak ceny" = 0 :=
  claim5_extract_price.2.2.2.1 "brak ceny" (by decide)

/-! ## Claim 6: extractLocationAndTime -/

/-- C6: on any text that splits on the literal " - " separator the left part
(trimmed) is returned as the location; a non-today right part keeps the
location and yields an empty time; a non-empty time is only ever produced when
the right part contains the profile's today keyword; and the spec's two
examples hold under the OLX profile (today keyword Dzisiaj, offset +2h). -/
theorem claim6_location_time :
    (∀ text config, 2 ≤ (splitOnDash text).length →
      (extractLocationAndTime text config).1 = goTrimSpace ((splitOnDash text).getD 0 "")) ∧
    (∀ text config, 2 ≤ (splitOnDash text).length →
      listContains config.todayKeyword.toList
        (goTrimSpace ((splitOnDash text).getD 1 "")).toList = false →
      extractLocationAndTime text config = (goTrimSpace ((splitOnDash text).getD 0 ""), "")) ∧
    (∀ text config, (extractLocationAndTime text config).2 ≠ "" →
      listContains config.todayKeyword.toList
        (goTrimSpace ((splitOnDash text).getD 1 "")).toList = true) ∧
    extractLocationAndTime "Warszawa, Mokotów - Dzisiaj o 14:30" OLXConfig =
      ("Warszawa, Mokotów", "16:30") ∧
    extractLocationAndTime "Kraków - 02 sierpnia 2025" OLXConfig = ("Kraków", "") := by
  refine ⟨?_, ?_, ?_, by decide, by decide⟩
  · intro text config h
    simp only [extractLocationAndTime, if_pos h]
    split <;> try rfl
    split <;> try rfl
    split <;> rfl
  · intro text config h hc
    simp only [extractLocationAndTime, if_pos h, hc]
    simp
  · intro text config h
    by_cases hlen : 2 ≤ (splitOnDash text).length
    · by_contra hc
      simp only [Bool.not_eq_true] at hc
      apply h
      simp only [extractLocationAndTime, if_pos hlen, hc]
      simp
    · simp only [extractLocationAndTime, if_neg hlen] at h
      exact absurd rfl h

/-- C6 witness: the non-today branch of the claim at a concrete input. -/
theorem claim6_witness :
    extractLocationAndTime "Poznań - wczoraj o 10:00" OLXConfig = ("Poznań", "") :=
  claim6_location_time.2.1 "Poznań - wczoraj o 10:00" OLXConfig (by decide) (by decide)

/-! ## Claim 7: normalizeURL -/

/-- C7: normalizeURL maps a root-relative path to baseURL plus the path, a bare
path (no leading slash, no http prefix) to baseURL plus a slash plus the path,
and leaves an http-prefixed absolute URL unchanged; the spec's three examples
hold. -/
theorem claim7_normalize_url :
    (∀ url baseURL : String, goHasPre url "/" = true →
      normalizeURL url baseURL = baseURL ++ url) ∧
    (∀ url baseURL : String, goHasPre url "/" = false → goHasPre url "http" = false →
      normalizeURL url baseURL = baseURL ++ "/" ++ url) ∧
    (∀ url baseURL : String, goHasPre url "/" = false → goHasPre url "http" = true →
      normalizeURL url baseURL = url) ∧
    normalizeURL "/d/oferta/x.html" "https://example.com" =
      "https://example.com/d/oferta/x.html" ∧
    normalizeURL "https://example.com/x.html" "https://example.com" =
      "https://example.com/x.html" ∧
    normalizeURL "x.html" "https://example.com" = "https://example.com/x.html" := by
  refine ⟨?_, ?_, ?_, by decide, by decide, by decide⟩
  · intro url baseURL h
    simp [normalizeURL, h]
  · intro url baseURL h1 h2
    simp [normalizeURL, h1, h2]
  · intro url baseURL h1 h2
    simp [normalizeURL, h1, h2]

/-- C7 witness: the bare-path branch of the claim at a concrete input. -/
theorem claim7_witness :
    normalizeURL "oferta/y.html" "https://www.olx.pl" = "https://www.olx.pl/oferta/y.html" :=
  claim7_normalize_url.2.1 "oferta/y.html" "https://www.olx.pl" (by decide) (by decide)

/-! ## Claim 10: ParseOffer dispatch frame -/

/-- C10: for every offer whose URL has neither the OLX nor the Otodom prefix,
ParseOffer is the identity for every fetch and decode oracle: the dispatch
falls through, no detail fetch can influence the result, and every field is
unchanged. -/
theorem claim10_dispatch_identity (fetch : String → Option (List Token))
    (decode : String → Option Json) (offer : Offer)
    (h1 : goHasPre offer.url "https://www.olx.pl" = false)
    (h2 : goHasPre offer.url "https://www.otodom.pl" = false) :
    ParseOffer fetch decode offer = PResult.ok offer := by
  simp [ParseOffer, h1, h2]

/-- C10 witness: a third-party host is returned unchanged. -/
theorem claim10_witness :
    ParseOffer cFetch cDecode { emptyOffer with url := "https://example.org/offer" } =
      PResult.ok { emptyOffer with url := "https://example.org/offer" } :=
  claim10_dispatch_identity cFetch cDecode _ (by decide) (by decide)

/-! ## Extraction-loop lemmas for claim 9 -/

theorem applyTextToken_url (config : ExtractorConfig) (offer : Offer) (ctx txt : String) :
    (applyTextToken config offer ctx txt).url = offer.url := by
  unfold applyTextToken
  split <;> (try dsimp only) <;>
    first
      | rfl
      | (split <;> rfl)
      | (split <;> split <;> rfl)

theorem updateAnchorUrl_no_href (config : ExtractorConfig) (offer : Offer)
    (attrs : List HtmlAttr) (h : getAttr attrs "href" = "") :
    updateAnchorUrl config offer attrs = offer := by
  simp [updateAnchorUrl, h]

theorem extractLoop_empty_or_url (config : ExtractorConfig) :
    ∀ (toks : List Token) (offer : Offer) (ctx : String) (isInLink : Bool) (depth : Int),
      extractLoop config toks offer ctx isInLink depth = emptyOffer ∨
        (extractLoop config toks offer ctx isInLink depth).url ≠ "" := by
  intro toks
  induction toks with
  | nil =>
    intro offer ctx isInLink depth
    simp only [extractLoop]
    by_cases h : offer.url = ""
    · left; simp [h]
    · right; simp [h]
  | cons tok rest ih =>
    intro offer ctx isInLink depth
    cases tok <;> simp only [extractLoop] <;>
      first
        | exact ih _ _ _ _
        | (split <;> exact ih _ _ _ _)

theorem extractLoop_no_anchor (config : ExtractorConfig) :
    ∀ (toks : List Token) (offer : Offer) (ctx : String) (isInLink : Bool) (depth : Int),
      (∀ name attrs, Token.startTag name attrs ∈ toks → name = "a" →
        getAttr attrs "href" = "") →
      offer.url = "" →
      extractLoop config toks offer ctx isInLink depth = emptyOffer := by
  intro toks
  induction toks with
  | nil =>
    intro offer ctx isInLink depth _ hurl
    simp [extractLoop, hurl]
  | cons tok rest ih =>
    intro offer ctx isInLink depth hanchor hurl
    have hrest : ∀ name attrs, Token.startTag name attrs ∈ rest → name = "a" →
        getAttr attrs "href" = "" :=
      fun name attrs hmem => hanchor name attrs (List.mem_cons_of_mem tok hmem)
    cases tok with
    | startTag name attrs =>
      simp only [extractLoop]
      by_cases hname : name = "a"
      · have hhref : getAttr attrs "href" = "" :=
          hanchor name attrs (List.mem_cons_self _ _) hname
        simp only [hname, if_pos, beq_self_eq_true, if_true]
        rw [updateAnchorUrl_no_href config offer attrs hhref]
        exact ih _ _ _ _ hrest hurl
      · have hne : (name == "a") = false := by simp [hname]
        simp only [hne, Bool.false_eq_true, if_false]
        exact ih _ _ _ _ hrest hurl
    | endTag name =>
      simp only [extractLoop]
      exact ih _ _ _ _ hrest hurl
    | selfClosing name attrs =>
      simp only [extractLoop]
      exact ih _ _ _ _ hrest hurl
    | text data =>
      simp only [extractLoop]
      split
      · exact ih _ _ _ _ hrest hurl
      · exact ih _ _ _ _ hrest (by rw [applyTextToken_url]; exact hurl)

theorem extractOffer_empty_or_url (frag : List Token) :
    extractOffer frag = emptyOffer ∨ (extractOffer frag).url ≠ "" := by
  unfold extractOffer extractOfferWithConfig
  split
  · exact Or.inl rfl
  · exact extractLoop_empty_or_url OLXConfig frag emptyOffer "" false 0

theorem parseHtmlLoop_titles_urls :
    ∀ (toks : List Token) (isOffer : Bool) (content : List Token) (depth : Int)
      (offers : List Offer),
      (∀ o ∈ offers, o.title ≠ "" ∧ o.url ≠ "") →
      ∀ o ∈ parseHtmlLoop toks isOffer content depth offers, o.title ≠ "" ∧ o.url ≠ "" := by
  intro toks
  induction toks with
  | nil => intro _ _ _ offers h o ho; exact h o ho
  | cons tok rest ih =>
    intro isOffer content depth offers h o ho
    cases tok with
    | startTag name attrs =>
      simp only [parseHtmlLoop] at ho
      split at ho
      · split at ho <;> exact ih _ _ _ _ h o ho
      · exact ih _ _ _ _ h o ho
    | endTag name =>
      simp only [parseHtmlLoop] at ho
      split at ho
      · refine ih _ _ _ _ ?_ o ho
        intro o2 ho2
        split at ho2
        · rcases List.mem_append.mp ho2 with hin | hnew
          · exact h o2 hin
          · have hoe : o2 = extractOffer content := List.mem_singleton.mp hnew
            subst hoe
            have ht : (extractOffer content).title ≠ "" := by assumption
            refine ⟨ht, ?_⟩
            rcases extractOffer_empty_or_url content with he | hu
            · rw [he] at ht; exact absurd rfl ht
            · exact hu
        · exact h o2 ho2
      · split at ho
        · exact ih _ _ _ _ h o ho
        · exact ih _ _ _ _ h o ho
    | selfClosing name attrs =>
      simp only [parseHtmlLoop] at ho
      split at ho <;> exact ih _ _ _ _ h o ho
    | text data =>
      simp only [parseHtmlLoop] at ho
      split at ho <;> exact ih _ _ _ _ h o ho

/-! ## Claim 9: offers returned by ParseHtml -/

/-- C9: every offer ParseHtml returns has a non-empty title and a non-empty
URL (empty-title artefacts are dropped by the listing pass, and a kept offer's
URL was set); and extraction of any fragment in which no anchor start tag
carries a URL attribute ends with an empty URL and yields the discard sentinel
(the empty Offer), for every profile. -/
theorem claim9_discard_sentinel :
    (∀ page : List Token, ∀ o ∈ ParseHtml page, o.title ≠ "" ∧ o.url ≠ "") ∧
    (∀ (frag : List Token) (config : ExtractorConfig),
      (∀ name attrs, Token.startTag name attrs ∈ frag → name = "a" →
        getAttr attrs "href" = "") →
      extractOfferWithConfig frag config = emptyOffer) := by
  constructor
  · intro page o ho
    exact parseHtmlLoop_titles_urls page false [] 0 [] (by intro o2 ho2; cases ho2) o ho
  · intro frag config hanchor
    unfold extractOfferWithConfig
    split
    · rfl
    · exact extractLoop_no_anchor config frag emptyOffer "" false 0 hanchor rfl

/-- C9 witness: the scenario listing page yields one offer with both fields
non-empty, and a fragment with no anchor is discarded. -/
theorem claim9_witness :
    (cRawOffer.title ≠ "" ∧ cRawOffer.url ≠ "") ∧
    extractOfferWithConfig [Token.startTag "h4" [], Token.text "bez linku"] OLXConfig =
      emptyOffer := by
  constructor
  · exact claim9_discard_sentinel.1 cListingPage cRawOffer (by decide)
  · apply claim9_discard_sentinel.2
    intro name attrs hmem hname
    subst hname
    simp only [List.mem_cons, List.not_mem_nil, or_false] at hmem
    rcases hmem with h | h
    · injection h with hn ha
      exact absurd hn (by decide)
    · exact Token.noConfusion h

/-! ## Claim 8: Otodom image extraction failures -/

/-- An Otodom detail page with a description container, one labelled table
value and a JSON script element. -/
def cOtoRichPage : List Token := [
  Token.startTag "div" [⟨"data-cy", "adPageAdDescription"⟩],
  Token.text "Opis mieszkania",
  Token.endTag "div",
  Token.startTag "p" [⟨"class", "e1wd2yzk2 css-1airkmu"⟩, ⟨"data-sentry-element", "Item"⟩],
  Token.text "Powierzchnia:",
  Token.endTag "p",
  Token.startTag "p" [⟨"class", "e1wd2yzk2 css-1airkmu"⟩],
  Token.text "50 m²",
  Token.endTag "p",
  Token.startTag "script" [⟨"type", "application/json"⟩],
  Token.text "jsondata",
  Token.endTag "script"]

/-- An Otodom offer as it leaves the listing pass. -/
def cOtoOffer : Offer := { emptyOffer with url := "https://www.otodom.pl/oferta/1" }

/-- Decode oracle under which the script's document is well formed but lacks
the props key entirely. -/
def cDecodeNoProps : String → Option Json := fun s =>
  if s == "jsondata" then some (Json.obj []) else none

theorem otodomLoop_ok_of_decode_none (decode : String → Option Json)
    (hdec : ∀ s, decode s = none) :
    ∀ (toks : List Token) (offer : Offer) (isDescription isJson : Bool)
      (currentTag : String) (isTagLabel isTagValue : Bool) (jsonText : String),
      ∃ r, otodomLoop decode toks offer isDescription isJson currentTag
        isTagLabel isTagValue jsonText = PResult.ok r := by
  intro toks
  induction toks with
  | nil =>
    intro offer d j ct l v jt
    exact ⟨offer, rfl⟩
  | cons tok rest ih =>
    intro offer d j ct l v jt
    cases tok with
    | startTag name attrs =>
      simp only [otodomLoop]
      exact ih _ _ _ _ _ _ _
    | text raw =>
      simp only [otodomLoop]
      exact ih _ _ _ _ _ _ _
    | endTag name =>
      simp only [otodomLoop]
      split
      · rw [hdec jt]
        simp only [parseOtodomImages]
        exact ih _ _ _ _ _ _ _
      · split
        · exact ih _ _ _ _ _ _ _
        · exact ih _ _ _ _ _ _ _
    | selfClosing name attrs =>
      simp only [otodomLoop]
      exact ih _ _ _ _ _ _ _

/-- C8 counterexample: a well-formed JSON document that merely lacks the
props -> pageProps -> ad -> images path does not make the image sub-step
return an explicit error with enrichment continuing - the unchecked type
assertion chain panics, and the panic aborts the whole of parseOtodomOffer
(no offer is returned at all), contrary to the claim. -/
theorem claim8_counterexample :
    parseOtodomImages (some (Json.obj [])) = ImagesResult.panicked ∧
    parseOtodomOffer (some cOtoRichPage) cDecodeNoProps cOtoOffer = PResult.panicked := by
  constructor
  · rfl
  · decide

/-- C8 amended: only a malformed document (a JSON decode error) is an explicit
error confined to the image sub-step - parseOtodomImages returns err, the
Images field receives the accompanying nil slice, and enrichment of the other
fields continues, still returning the offer (shown both in general, for every
page, and concretely with description and area enriched); a well-formed
document missing the props key instead panics, aborting enrichment. -/
theorem claim8_amended (decode : String → Option Json) (hdec : ∀ s, decode s = none) :
    parseOtodomImages none = ImagesResult.err "json decode error" ∧
    (∀ toks offer, ∃ r, parseOtodomOffer (some toks) decode offer = PResult.ok r) ∧
    (∀ fields, jsonLookup fields "props" = none →
      parseOtodomImages (some (Json.obj fields)) = ImagesResult.panicked) ∧
    parseOtodomOffer (some cOtoRichPage) cDecode cOtoOffer =
      PResult.ok
        { cOtoOffer with
          description := "Opis mieszkania",
          area := "Powierzchnia: 50 m²",
          images := [] } := by
    refine ⟨rfl, ?_, ?_, by decide⟩
    · intro toks offer
      exact otodomLoop_ok_of_decode_none decode hdec toks offer false false "" false false ""
    · intro fields h
      simp [parseOtodomImages, h, assertObj]

/-- C8 amended witness: with a decoder that always fails, the rich Otodom page
still yields an offer. -/
theorem claim8_witness :
    ∃ r, parseOtodomOffer (some cOtoRichPage) cDecode cOtoOffer = PResult.ok r :=
  (claim8_amended cDecode (fun _ => rfl)).2.1 cOtoRichPage cOtoOffer

/-! ## Natural keys and store lemmas -/

/-- The dedup natural key of an offer for a subscriber: (title, price, user). -/
def okey (offer : Offer) (userID : Int) : String × Int × Int :=
  (offer.title, offer.price, userID)

/-- The natural key of a stored row. -/
def rowKey (row : Offer × Int) : String × Int × Int := okey row.1 row.2

/-- A key is present in the store. -/
def KeyIn (db : OffersDB) (k : String × Int × Int) : Prop :=
  ∃ row ∈ db.rows, rowKey row = k

/-- Number of rows carrying a key. -/
def keyCount (db : OffersDB) (k : String × Int × Int) : Nat :=
  db.rows.countP (fun row => rowKey row == k)

theorem offerMatchesRow_iff (offer : Offer) (userID : Int) (row : Offer × Int) :
    offerMatchesRow offer userID row = true ↔ rowKey row = okey offer userID := by
  simp [offerMatchesRow, rowKey, okey, Prod.ext_iff, and_assoc]

theorem offerExists_iff (db : OffersDB) (offer : Offer) (userID : Int) :
    OfferExists db offer userID = true ↔ KeyIn db (okey offer userID) := by
  simp only [OfferExists, KeyIn, List.any_eq_true, offerMatchesRow_iff]

theorem keyCount_pos_iff (db : OffersDB) (k : String × Int × Int) :
    0 < keyCount db k ↔ KeyIn db k := by
  simp [keyCount, KeyIn, List.countP_pos_iff]

theorem keyCount_zero_iff (db : OffersDB) (k : String × Int × Int) :
    keyCount db k = 0 ↔ ¬ KeyIn db k := by
  rw [← keyCount_pos_iff]
  omega

theorem offerExists_congr (db : OffersDB) (o1 o2 : Offer) (userID : Int)
    (ht : o1.title = o2.title) (hp : o1.price = o2.price) :
    OfferExists db o1 userID = OfferExists db o2 userID := by
  unfold OfferExists
  congr 1
  funext row
  simp [offerMatchesRow, ht, hp]

theorem addOffer_of_exists (db : OffersDB) (offer : Offer) (userID : Int)
    (h : OfferExists db offer userID = true) : AddOffer db offer userID = db := by
  simp [AddOffer, h]

theorem addOffer_of_not_exists (db : OffersDB) (offer : Offer) (userID : Int)
    (h : OfferExists db offer userID = false) :
    AddOffer db offer userID = ⟨db.rows ++ [(offer, userID)]⟩ := by
  simp [AddOffer, h]

theorem keyIn_append (rows ext : List (Offer × Int)) (k : String × Int × Int)
    (h : KeyIn ⟨rows⟩ k) : KeyIn ⟨rows ++ ext⟩ k := by
  rcases h with ⟨row, hmem, hk⟩
  exact ⟨row, List.mem_append_left ext hmem, hk⟩

theorem keyCount_append (rows ext : List (Offer × Int)) (k : String × Int × Int) :
    keyCount ⟨rows ++ ext⟩ k = keyCount ⟨rows⟩ k + keyCount ⟨ext⟩ k := by
  simp [keyCount, List.countP_append]

theorem keyCount_single (row : Offer × Int) (k : String × Int × Int) :
    keyCount ⟨[row]⟩ k = if rowKey row = k then 1 else 0 := by
  simp only [keyCount, List.countP_cons, List.countP_nil]
  by_cases h : rowKey row = k <;> simp [h]

/-! ## Enrichment preserves the natural key -/

theorem olxTextRoute_fields (offer : Offer) (data : String) :
    (olxTextRoute offer data).title = offer.title ∧
    (olxTextRoute offer data).price = offer.price := by
  unfold olxTextRoute
  split <;> (try split) <;> (try split) <;> (try split) <;> exact ⟨rfl, rfl⟩

theorem olxLoop_fields :
    ∀ (toks : List Token) (offer : Offer) (isDescription isTag : Bool),
      (olxLoop toks offer isDescription isTag).title = offer.title ∧
      (olxLoop toks offer isDescription isTag).price = offer.price := by
  intro toks
  induction toks with
  | nil => intro offer d t; exact ⟨rfl, rfl⟩
  | cons tok rest ih =>
    intro offer d t
    cases tok with
    | startTag name attrs =>
      simp only [olxLoop]
      exact ih _ _ _
    | text data =>
      simp only [olxLoop]
      split
      · exact ih _ _ _
      · split
        · obtain ⟨h1, h2⟩ := ih (olxTextRoute offer data) d t
          obtain ⟨g1, g2⟩ := olxTextRoute_fields offer data
          exact ⟨h1.trans g1, h2.trans g2⟩
        · exact ih _ _ _
    | endTag name =>
      simp only [olxLoop]
      split
      · exact ih _ _ _
      · split <;> exact ih _ _ _
    | selfClosing name attrs =>
      simp only [olxLoop]
      split <;> exact ih _ _ _

theorem parseOlxOffer_fields (fetched : Option (List Token)) (offer : Offer) :
    (parseOlxOffer fetched offer).title = offer.title ∧
    (parseOlxOffer fetched offer).price = offer.price := by
  cases fetched with
  | none => exact ⟨rfl, rfl⟩
  | some toks => exact olxLoop_fields toks offer false false

theorem otodomTagUpdate_fields (offer : Offer) (currentTag text : String) :
    (otodomTagUpdate offer currentTag text).title = offer.title ∧
    (otodomTagUpdate offer currentTag text).price = offer.price := by
  unfold otodomTagUpdate
  split <;> (try (dsimp only; split)) <;> exact ⟨rfl, rfl⟩

theorem otodomTextState_fields (offer : Offer) (currentTag : String)
    (isTagLabel isTagValue : Bool) (text : String) :
    (otodomTextState offer currentTag isTagLabel isTagValue text).1.title = offer.title ∧
    (otodomTextState offer currentTag isTagLabel isTagValue text).1.price = offer.price := by
  unfold otodomTextState
  split
  · exact ⟨rfl, rfl⟩
  · split
    · exact otodomTagUpdate_fields offer currentTag text
    · exact ⟨rfl, rfl⟩

theorem otodomLoop_fields (decode : String → Option Json) :
    ∀ (toks : List Token) (offer : Offer) (isDescription isJson : Bool)
      (currentTag : String) (isTagLabel isTagValue : Bool) (jsonText : String) (r : Offer),
      otodomLoop decode toks offer isDescription isJson currentTag
        isTagLabel isTagValue jsonText = PResult.ok r →
      r.title = offer.title ∧ r.price = offer.price := by
  intro toks
  induction toks with
  | nil =>
    intro offer d j ct l v jt r h
    injection h with h
    subst h
    exact ⟨rfl, rfl⟩
  | cons tok rest ih =>
    intro offer d j ct l v jt r h
    cases tok with
    | startTag name attrs =>
      simp only [otodomLoop] at h
      exact ih _ _ _ _ _ _ _ _ h
    | text raw =>
      simp only [otodomLoop] at h
      obtain ⟨h1, h2⟩ := ih _ _ _ _ _ _ _ _ h
      obtain ⟨g1, g2⟩ :=
        otodomTextState_fields offer ct l v (goTrimSpace raw)
      constructor
      · rw [h1]
        split
        · exact g1
        · exact g1
      · rw [h2]
        split
        · exact g2
        · exact g2
    | endTag name =>
      simp only [otodomLoop] at h
      split at h
      · split at h
        · exact absurd h (by simp)
        · obtain ⟨h1, h2⟩ := ih _ _ _ _ _ _ _ _ h
          exact ⟨h1, h2⟩
        · obtain ⟨h1, h2⟩ := ih _ _ _ _ _ _ _ _ h
          exact ⟨h1, h2⟩
      · split at h
        · obtain ⟨h1, h2⟩ := ih _ _ _ _ _ _ _ _ h
          constructor
          · rw [h1]; split <;> rfl
          · rw [h2]; split <;> rfl
        · exact ih _ _ _ _ _ _ _ _ h
    | selfClosing name attrs =>
      simp only [otodomLoop] at h
      exact ih _ _ _ _ _ _ _ _ h

theorem parseOtodomOffer_fields (fetched : Option (List Token))
    (decode : String → Option Json) (offer : Offer) (r : Offer)
    (h : parseOtodomOffer fetched decode offer = PResult.ok r) :
    r.title = offer.title ∧ r.price = offer.price := by
  cases fetched with
  | none =>
    injection h with h
    subst h
    exact ⟨rfl, rfl⟩
  | some toks => exact otodomLoop_fields decode toks offer false false "" false false "" r h

theorem parseOffer_fields (fetch : String → Option (List Token))
    (decode : String → Option Json) (offer r : Offer)
    (h : ParseOffer fetch decode offer = PResult.ok r) :
    r.title = offer.title ∧ r.price = offer.price := by
  unfold ParseOffer at h
  split at h
  · injection h with h
    subst h
    exact parseOlxOffer_fields (fetch offer.url) offer
  · split at h
    · exact parseOtodomOffer_fields (fetch offer.url) decode offer r h
    · injection h with h
      subst h
      exact ⟨rfl, rfl⟩

/-! ## Pipeline loop lemmas -/

theorem addOffer_rows_grow (db : OffersDB) (offer : Offer) (userID : Int) :
    ∃ ext, (AddOffer db offer userID).rows = db.rows ++ ext := by
  unfold AddOffer
  split
  · exact ⟨[], by simp⟩
  · exact ⟨[(offer, userID)], rfl⟩

theorem processOffersLoop_rows_grow (fetch : String → Option (List Token))
    (decode : String → Option Json) (userID : Int) :
    ∀ (offers : List Offer) (db : OffersDB) (sent : List (Offer × Int))
      (db' : OffersDB) (sent' : List (Offer × Int)),
      processOffersLoop fetch decode userID offers db sent = PResult.ok (db', sent') →
      ∃ ext, db'.rows = db.rows ++ ext := by
  intro offers
  induction offers with
  | nil =>
    intro db sent db' sent' h
    simp only [processOffersLoop, PResult.ok.injEq, Prod.mk.injEq] at h
    exact ⟨[], by simp [h.1]⟩
  | cons offer rest ih =>
    intro db sent db' sent' h
    simp only [processOffersLoop] at h
    split at h
    · exact ih _ _ _ _ h
    · split at h
      · exact absurd h (by simp)
      · split at h <;>
          · obtain ⟨ext2, hext2⟩ := ih _ _ _ _ h
            obtain ⟨ext1, hext1⟩ := addOffer_rows_grow db _ userID
            exact ⟨ext1 ++ ext2, by rw [hext2, hext1, List.append_assoc]⟩

theorem processOffersLoop_sent_grow (fetch : String → Option (List Token))
    (decode : String → Option Json) (userID : Int) :
    ∀ (offers : List Offer) (db : OffersDB) (sent : List (Offer × Int))
      (db' : OffersDB) (sent' : List (Offer × Int)),
      processOffersLoop fetch decode userID offers db sent = PResult.ok (db', sent') →
      ∃ ext, sent' = sent ++ ext := by
  intro offers
  induction offers with
  | nil =>
    intro db sent db' sent' h
    simp only [processOffersLoop, PResult.ok.injEq, Prod.mk.injEq] at h
    exact ⟨[], by simp [h.2]⟩
  | cons offer rest ih =>
    intro db sent db' sent' h
    simp only [processOffersLoop] at h
    split at h
    · exact ih _ _ _ _ h
    · split at h
      · exact absurd h (by simp)
      · split at h
        · obtain ⟨ext2, hext2⟩ := ih _ _ _ _ h
          subst hext2
          exact ⟨_, List.append_assoc _ _ _⟩
        · exact ih _ _ _ _ h

theorem processOffersLoop_keys_present (fetch : String → Option (List Token))
    (decode : String → Option Json) (userID : Int) :
    ∀ (offers : List Offer) (db : OffersDB) (sent : List (Offer × Int))
      (db' : OffersDB) (sent' : List (Offer × Int)),
      processOffersLoop fetch decode userID offers db sent = PResult.ok (db', sent') →
      ∀ o ∈ offers, KeyIn db' (okey o userID) := by
  intro offers
  induction offers with
  | nil => intro db sent db' sent' _ o ho; cases ho
  | cons offer rest ih =>
    intro db sent db' sent' h o ho
    simp only [processOffersLoop] at h
    rcases List.mem_cons.mp ho with hhead | htail
    · subst hhead
      split at h
      · next hex =>
          have hkey : KeyIn db (okey o userID) := (offerExists_iff db o userID).mp hex
          obtain ⟨ext, hext⟩ := processOffersLoop_rows_grow fetch decode userID _ _ _ _ _ h
          rcases hkey with ⟨row, hmem, hk⟩
          exact ⟨row, by rw [hext]; exact List.mem_append_left ext hmem, hk⟩
      · split at h
        · exact absurd h (by simp)
        · next enriched henr =>
            obtain ⟨ht, hp⟩ := parseOffer_fields fetch decode o enriched henr
            have hkeyeq : okey enriched userID = okey o userID := by
              simp [okey, ht, hp]
            have hnew : KeyIn (AddOffer db enriched userID) (okey o userID) := by
              obtain ⟨ext1, hext1⟩ := addOffer_rows_grow db enriched userID
              by_cases hex2 : OfferExists db enriched userID = true
              · have := (offerExists_iff db enriched userID).mp hex2
                rcases this with ⟨row, hmem, hk⟩
                refine ⟨row, ?_, by rw [hk]; exact hkeyeq⟩
                rw [hext1]
                exact List.mem_append_left ext1 hmem
              · have hex2f : OfferExists db enriched userID = false :=
                  Bool.eq_false_iff.mpr hex2
                rw [addOffer_of_not_exists db enriched userID hex2f]
                exact ⟨(enriched, userID), List.mem_append_right _ (List.mem_singleton_self _),
                  hkeyeq⟩
            split at h <;>
              · obtain ⟨ext, hext⟩ := processOffersLoop_rows_grow fetch decode userID _ _ _ _ _ h
                rcases hnew with ⟨row, hmem, hk⟩
                exact ⟨row, by rw [hext]; exact List.mem_append_left ext hmem, hk⟩
    · split at h
      · exact ih _ _ _ _ h o htail
      · split at h
        · exact absurd h (by simp)
        · split at h <;> exact ih _ _ _ _ h o htail

theorem processOffersLoop_all_exist (fetch : String → Option (List Token))
    (decode : String → Option Json) (userID : Int) :
    ∀ (offers : List Offer) (db : OffersDB) (sent : List (Offer × Int)),
      (∀ o ∈ offers, OfferExists db o userID = true) →
      processOffersLoop fetch decode userID offers db sent = PResult.ok (db, sent) := by
  intro offers
  induction offers with
  | nil => intro db sent _; rfl
  | cons offer rest ih =>
    intro db sent hall
    have hhead : OfferExists db offer userID = true := hall offer (List.mem_cons_self _ _)
    simp only [processOffersLoop, hhead]
    simp only [if_true]
    exact ih db sent (fun o ho => hall o (List.mem_cons_of_mem offer ho))

theorem addOffer_keyCount_other (db : OffersDB) (offer : Offer) (userID : Int)
    (k : String × Int × Int) (hne : okey offer userID ≠ k) :
    keyCount (AddOffer db offer userID) k = keyCount db k := by
  unfold AddOffer
  split
  · rfl
  · rw [keyCount_append, keyCount_single]
    simp only [rowKey]
    rw [if_neg hne]
    simp

theorem processOffersLoop_count_preserved (fetch : String → Option (List Token))
    (decode : String → Option Json) (userID : Int) :
    ∀ (offers : List Offer) (db : OffersDB) (sent : List (Offer × Int))
      (db' : OffersDB) (sent' : List (Offer × Int)) (k : String × Int × Int),
      processOffersLoop fetch decode userID offers db sent = PResult.ok (db', sent') →
      0 < keyCount db k → keyCount db' k = keyCount db k := by
  intro offers
  induction offers with
  | nil =>
    intro db sent db' sent' k h hpos
    simp only [processOffersLoop, PResult.ok.injEq, Prod.mk.injEq] at h
    rw [← h.1]
  | cons offer rest ih =>
    intro db sent db' sent' k h hpos
    simp only [processOffersLoop] at h
    split at h
    · exact ih _ _ _ _ _ h hpos
    · next hex =>
        split at h
        · exact absurd h (by simp)
        · next enriched henr =>
            obtain ⟨ht, hp⟩ := parseOffer_fields fetch decode offer enriched henr
            have hkeyeq : okey enriched userID = okey offer userID := by
              simp [okey, ht, hp]
            have hzero : keyCount db (okey offer userID) = 0 := by
              rw [keyCount_zero_iff]
              intro hk
              exact hex ((offerExists_iff db offer userID).mpr hk)
            have hne : okey enriched userID ≠ k := by
              rw [hkeyeq]
              intro hkk
              rw [hkk] at hzero
              omega
            have hcount2 : keyCount (AddOffer db enriched userID) k = keyCount db k :=
              addOffer_keyCount_other db enriched userID k hne
            split at h <;>
              · rw [ih _ _ _ _ _ h (by rw [hcount2]; exact hpos), hcount2]

theorem processOffersLoop_count_one (fetch : String → Option (List Token))
    (decode : String → Option Json) (userID : Int) :
    ∀ (offers : List Offer) (db : OffersDB) (sent : List (Offer × Int))
      (db' : OffersDB) (sent' : List (Offer × Int)) (k : String × Int × Int),
      processOffersLoop fetch decode userID offers db sent = PResult.ok (db', sent') →
      keyCount db k = 0 → (∃ o ∈ offers, okey o userID = k) → keyCount db' k = 1 := by
  intro offers
  induction offers with
  | nil =>
    intro db sent db' sent' k _ _ hwit
    rcases hwit with ⟨o, ho, _⟩
    cases ho
  | cons offer rest ih =>
    intro db sent db' sent' k h hzero hwit
    simp only [processOffersLoop] at h
    by_cases hk : okey offer userID = k
    · split at h
      · next hex =>
          exfalso
          have := (offerExists_iff db offer userID).mp hex
          rw [← keyCount_pos_iff, hk, hzero] at this
          omega
      · next hex =>
          split at h
          · exact absurd h (by simp)
          · next enriched henr =>
              obtain ⟨ht, hp⟩ := parseOffer_fields fetch decode offer enriched henr
              have hkeyeq : okey enriched userID = okey offer userID := by
                simp [okey, ht, hp]
              have hexf : OfferExists db enriched userID = false := by
                rw [offerExists_congr db enriched offer userID ht hp]
                exact Bool.eq_false_iff.mpr hex
              have hone : keyCount (AddOffer db enriched userID) k = 1 := by
                rw [addOffer_of_not_exists db enriched userID hexf, keyCount_append,
                  keyCount_single]
                simp only [rowKey]
                rw [if_pos (hkeyeq.trans hk), hzero]
              split at h <;>
                · rw [processOffersLoop_count_preserved fetch decode userID _ _ _ _ _ _ h
                    (by rw [hone]; omega), hone]
    · have hwit2 : ∃ o ∈ rest, okey o userID = k := by
        rcases hwit with ⟨o, ho, hko⟩
        rcases List.mem_cons.mp ho with hh | htail
        · subst hh; exact absurd hko hk
        · exact ⟨o, htail, hko⟩
      split at h
      · exact ih _ _ _ _ _ h hzero hwit2
      · next hex =>
          split at h
          · exact absurd h (by simp)
          · next enriched henr =>
              obtain ⟨ht, hp⟩ := parseOffer_fields fetch decode offer enriched henr
              have hkeyeq : okey enriched userID = okey offer userID := by
                simp [okey, ht, hp]
              have hcount2 : keyCount (AddOffer db enriched userID) k = keyCount db k :=
                addOffer_keyCount_other db enriched userID k (by rw [hkeyeq]; exact hk)
              split at h <;>
                · exact ih _ _ _ _ _ h (by rw [hcount2]; exact hzero) hwit2

theorem processOffersLoop_notify_nodup (fetch : String → Option (List Token))
    (decode : String → Option Json) (userID : Int) :
    ∀ (offers : List Offer) (db : OffersDB) (sent : List (Offer × Int))
      (db' : OffersDB) (sent' : List (Offer × Int)),
      processOffersLoop fetch decode userID offers db sent = PResult.ok (db', sent') →
      (∀ p ∈ sent, KeyIn db (rowKey p)) →
      (sent.map rowKey).Nodup →
      (sent'.map rowKey).Nodup := by
  intro offers
  induction offers with
  | nil =>
    intro db sent db' sent' h _ hnd
    simp only [processOffersLoop, PResult.ok.injEq, Prod.mk.injEq] at h
    rw [← h.2]
    exact hnd
  | cons offer rest ih =>
    intro db sent db' sent' h hin hnd
    simp only [processOffersLoop] at h
    split at h
    · exact ih _ _ _ _ h hin hnd
    · next hex =>
        split at h
        · exact absurd h (by simp)
        · next enriched henr =>
            obtain ⟨ht, hp⟩ := parseOffer_fields fetch decode offer enriched henr
            have hkeyeq : okey enriched userID = okey offer userID := by
              simp [okey, ht, hp]
            have hnotin : ¬ KeyIn db (okey enriched userID) := by
              rw [hkeyeq]
              intro hkk
              exact hex ((offerExists_iff db offer userID).mpr hkk)
            have hin2 : ∀ p ∈ sent, KeyIn (AddOffer db enriched userID) (rowKey p) := by
              intro p hp2
              obtain ⟨ext1, hext1⟩ := addOffer_rows_grow db enriched userID
              rcases hin p hp2 with ⟨row, hmem, hk⟩
              exact ⟨row, by rw [hext1]; exact List.mem_append_left ext1 hmem, hk⟩
            have hnewin : KeyIn (AddOffer db enriched userID) (okey enriched userID) := by
              have hexf : OfferExists db enriched userID = false := by
                rw [offerExists_congr db enriched offer userID ht hp]
                exact Bool.eq_false_iff.mpr hex
              rw [addOffer_of_not_exists db enriched userID hexf]
              exact ⟨(enriched, userID), List.mem_append_right _ (List.mem_singleton_self _), rfl⟩
            split at h
            · refine ih _ _ _ _ h ?_ ?_
              · intro p hp2
                rcases List.mem_append.mp hp2 with hold | hnew
                · exact hin2 p hold
                · rw [List.mem_singleton.mp hnew]
                  exact hnewin
              · rw [List.map_append, List.map_singleton]
                rw [List.nodup_append]
                refine ⟨hnd, List.nodup_singleton _, ?_⟩
                intro a ha hb
                rw [List.mem_singleton.mp hb] at ha
                rcases List.mem_map.mp ha with ⟨p, hp2, hkp⟩
                apply hnotin
                have hrk : rowKey (enriched, userID) = okey enriched userID := rfl
                rw [← hrk, ← hkp]
                exact hin p hp2
            · exact ih _ _ _ _ h hin2 hnd

theorem processOffersLoop_sent_guard (fetch : String → Option (List Token))
    (decode : String → Option Json) (userID : Int) :
    ∀ (offers : List Offer) (db : OffersDB) (sent : List (Offer × Int))
      (db' : OffersDB) (sent' : List (Offer × Int)),
      processOffersLoop fetch decode userID offers db sent = PResult.ok (db', sent') →
      (∀ p ∈ sent, notifyGuard p.1.time = true) →
      ∀ p ∈ sent', notifyGuard p.1.time = true := by
  intro offers
  induction offers with
  | nil =>
    intro db sent db' sent' h hg
    simp only [processOffersLoop, PResult.ok.injEq, Prod.mk.injEq] at h
    rw [← h.2]
    exact hg
  | cons offer rest ih =>
    intro db sent db' sent' h hg
    simp only [processOffersLoop] at h
    split at h
    · exact ih _ _ _ _ h hg
    · split at h
      · exact absurd h (by simp)
      · split at h
        · next hguard =>
            refine ih _ _ _ _ h ?_
            intro p hp2
            rcases List.mem_append.mp hp2 with hold | hnew
            · exact hg p hold
            · rw [List.mem_singleton.mp hnew]
              exact hguard
        · exact ih _ _ _ _ h hg

/-! ## Claim 1: dedup invariant and idempotence -/

/-- C1: AddOffer is a no-op whenever OfferExists reports the natural key
present; and when one pass over an unchanged listing page succeeds, a second
pass over it is a complete no-op (same store, no notifications), every page
offer whose (title, price, subscriber) key was absent before the first pass is
stored exactly once after it, keys already present are never inserted again
(their row count is unchanged), and the notifications of the first pass hit
each natural key at most once. -/
theorem claim1_dedup_idempotent (fetch : String → Option (List Token))
    (decode : String → Option Json) (search : Search) (db0 db1 : OffersDB)
    (sent1 : List (Offer × Int)) (page : List Token)
    (hf : fetch search.url = some page)
    (h1 : processAllOffersFromSearch fetch decode search db0 = PResult.ok (db1, sent1)) :
    (∀ (db : OffersDB) (o : Offer) (uid : Int),
      OfferExists db o uid = true → AddOffer db o uid = db) ∧
    processAllOffersFromSearch fetch decode search db1 = PResult.ok (db1, []) ∧
    (∀ o ∈ ParseHtml page, keyCount db0 (okey o search.userID) = 0 →
      keyCount db1 (okey o search.userID) = 1) ∧
    (∀ k, 0 < keyCount db0 k → keyCount db1 k = keyCount db0 k) ∧
    (sent1.map rowKey).Nodup := by
  unfold processAllOffersFromSearch at h1 ⊢
  rw [hf] at h1 ⊢
  refine ⟨?_, ?_, ?_, ?_, ?_⟩
  · intro db o uid hex
    exact addOffer_of_exists db o uid hex
  · apply processOffersLoop_all_exist
    intro o ho
    exact (offerExists_iff db1 o search.userID).mpr
      (processOffersLoop_keys_present fetch decode search.userID _ _ _ _ _ h1 o ho)
  · intro o ho hzero
    exact processOffersLoop_count_one fetch decode search.userID _ _ _ _ _ _ h1 hzero
      ⟨o, ho, rfl⟩
  · intro k hpos
    exact processOffersLoop_count_preserved fetch decode search.userID _ _ _ _ _ _ h1 hpos
  · exact processOffersLoop_notify_nodup fetch decode search.userID _ _ _ _ _ h1
      (by intro p hp; cases hp) (by simp)

/-- C1 witness: in the concrete scenario the second pass over the unchanged
page leaves the store exactly as after the first pass and notifies nobody. -/
theorem claim1_witness :
    processAllOffersFromSearch cFetch cDecode cSearch cDbAfter = PResult.ok (cDbAfter, []) :=
  (claim1_dedup_idempotent cFetch cDecode cSearch ⟨[]⟩ cDbAfter [] cListingPage rfl
    (by decide)).2.1

/-! ## Claim 2: notification condition -/

/-- C2 counterexample: in the concrete scenario the newly persisted offer has
a non-empty image list and a non-empty postedTime, yet no notification is
sent: the code gates notification on Time being longer than 7 bytes and
starting with the bytes of Dzisiaj, and never consults the image list, so the
claimed iff fails at this input. -/
theorem claim2_counterexample :
    processAllOffersFromSearch cFetch cDecode cSearch ⟨[]⟩ =
      PResult.ok (⟨[(cEnrichedOffer, 7)]⟩, []) ∧
    cEnrichedOffer.images ≠ [] ∧ cEnrichedOffer.time ≠ "" :=
  ⟨by decide, by decide, by decide⟩

/-- C2 amended: a persisted offer is notified exactly when its Time field is
longer than 7 bytes and begins with the bytes of Dzisiaj - every notified
offer satisfies that guard, and a fresh offer whose enrichment satisfies it is
notified; the image list plays no role. -/
theorem claim2_notify_guard_amended (fetch : String → Option (List Token))
    (decode : String → Option Json) (userID : Int) :
    (∀ (offers : List Offer) (db db' : OffersDB) (sent' : List (Offer × Int)),
      processOffersLoop fetch decode userID offers db [] = PResult.ok (db', sent') →
      ∀ p ∈ sent', notifyGuard p.1.time = true) ∧
    (∀ (offer : Offer) (rest : List Offer) (db db' : OffersDB)
      (sent' : List (Offer × Int)) (enriched : Offer),
      processOffersLoop fetch decode userID (offer :: rest) db [] = PResult.ok (db', sent') →
      OfferExists db offer userID = false →
      ParseOffer fetch decode offer = PResult.ok enriched →
      notifyGuard enriched.time = true →
      (enriched, userID) ∈ sent') := by
  constructor
  · intro offers db db' sent' h
    exact processOffersLoop_sent_guard fetch decode userID offers db [] db' sent' h
      (by intro p hp; cases hp)
  · intro offer rest db db' sent' enriched h hfresh henr hguard
    simp only [processOffersLoop, hfresh, henr, hguard] at h
    simp only [Bool.false_eq_true, if_false, if_true, List.nil_append] at h
    obtain ⟨ext, hext⟩ := processOffersLoop_sent_grow fetch decode userID _ _ _ _ _ h
    rw [hext]
    exact List.mem_append_left ext (List.mem_singleton_self _)

/-- An offer whose Time passes the Dzisiaj byte guard, for the C2 witness. -/
def cWOffer : Offer :=
  { title := "Mieszkanie", time := "Dzisiaj 12:00", url := "tel:123" }

/-- C2 amended witness: a concrete run whose one notification satisfies the
guard. -/
theorem claim2_witness : notifyGuard cWOffer.time = true :=
  (claim2_notify_guard_amended cFetch cDecode 5).1 [cWOffer] ⟨[]⟩
    ⟨[(cWOffer, 5)]⟩ [(cWOffer, 5)] (by decide) (cWOffer, 5) (by decide)

/-! ## Claim 3: fetch failure fatality -/

/-- Fetch oracle failing for the first search's page and succeeding (with an
empty page) for the second. -/
def cFetchB : String → Option (List Token) := fun u =>
  if u == "https://search.example/pageB" then some [] else none

/-- First registered search (its fetch fails). -/
def cSearchA : Search := ⟨2, 8, "https://search.example/pageA"⟩

/-- Second registered search (its fetch would succeed). -/
def cSearchB : Search := ⟨3, 9, "https://search.example/pageB"⟩

/-- C3 counterexample: a failing fetch for the first search makes the whole
sweep panic - the second search, which alone would be processed fine, is never
reached and the loop does not continue, contrary to the claimed
logged-and-skipped behaviour. -/
theorem claim3_counterexample :
    parseOffersSweep cFetchB cDecode [cSearchA, cSearchB] ⟨[]⟩ = PResult.panicked ∧
    processAllOffersFromSearch cFetchB cDecode cSearchB ⟨[]⟩ = PResult.ok (⟨[]⟩, []) ∧
    ¬ ∃ p, parseOffersSweep cFetchB cDecode [cSearchA, cSearchB] ⟨[]⟩ = PResult.ok p := by
  refine ⟨by decide, by decide, ?_⟩
  rintro ⟨p, hp⟩
  rw [(by decide :
    parseOffersSweep cFetchB cDecode [cSearchA, cSearchB] ⟨[]⟩ = PResult.panicked)] at hp
  exact PResult.noConfusion hp

/-- C3 amended: a network or non-success-status failure while fetching a
search's listing page hits panic(err): the pass for that search panics, and
the panic aborts the entire sweep, leaving every remaining search
unprocessed. -/
theorem claim3_fetch_panic_amended (fetch : String → Option (List Token))
    (decode : String → Option Json) (search : Search) (rest : List Search)
    (db : OffersDB) (hf : fetch search.url = none) :
    processAllOffersFromSearch fetch decode search db = PResult.panicked ∧
    parseOffersSweep fetch decode (search :: rest) db = PResult.panicked := by
  have h1 : processAllOffersFromSearch fetch decode search db = PResult.panicked := by
    unfold processAllOffersFromSearch
    rw [hf]
  refine ⟨h1, ?_⟩
  simp only [parseOffersSweep, h1]

/-- C3 amended witness: the failing search panics the sweep concretely. -/
theorem claim3_witness :
    parseOffersSweep cFetchB cDecode [cSearchA] ⟨[]⟩ = PResult.panicked :=
  (claim3_fetch_panic_amended cFetchB cDecode cSearchA [] ⟨[]⟩ rfl).2

/-! ## Claim 4: no search re-validation -/

/-- C4 counterexample: take the search store to be empty - cSearch (id 1) was
deleted before the per-offer loop ran - and run the pass: the offer of the
deleted search is still enriched and inserted (the store changes from empty to
one row), so the remaining offers of that search are not abandoned; the code
has no search-existence re-check at all. -/
theorem claim4_counterexample :
    (1 : Int) ∉ ([] : List Int) ∧
    processAllOffersFromSearch cFetch cDecode cSearch ⟨[]⟩ =
      PResult.ok (⟨[(cEnrichedOffer, 7)]⟩, []) ∧
    (⟨[]⟩ : OffersDB) ≠ ⟨[(cEnrichedOffer, 7)]⟩ :=
  ⟨by decide, by decide, by decide⟩

/-- C4 amended: the per-offer loop never consults the search store - for any
set of still-existing search ids, even one not containing the owning search
(it was deleted mid-sweep), a fresh offer of that search is still enriched,
inserted, and notified when its guard passes. -/
theorem claim4_no_revalidation_amended (searchIds : List Int)
    (fetch : String → Option (List Token)) (decode : String → Option Json)
    (search : Search) (db : OffersDB) (page : List Token) (offer enriched : Offer)
    (hdeleted : search.id ∉ searchIds)
    (hf : fetch search.url = some page)
    (hone : ParseHtml page = [offer])
    (hfresh : OfferExists db offer search.userID = false)
    (henr : ParseOffer fetch decode offer = PResult.ok enriched) :
    processAllOffersFromSearch fetch decode search db =
      PResult.ok (AddOffer db enriched search.userID,
        if notifyGuard enriched.time then [(enriched, search.userID)] else []) := by
  unfold processAllOffersFromSearch
  rw [hf]
  dsimp only
  rw [hone]
  simp only [processOffersLoop, hfresh, henr]
  simp only [Bool.false_eq_true, if_false]
  split <;> rfl

/-- C4 amended witness: the concrete deleted-search run still inserts. -/
theorem claim4_witness :
    processAllOffersFromSearch cFetch cDecode cSearch ⟨[]⟩ =
      PResult.ok (AddOffer ⟨[]⟩ cEnrichedOffer cSearch.userID,
        if notifyGuard cEnrichedOffer.time then [(cEnrichedOffer, cSearch.userID)] else []) :=
  claim4_no_revalidation_amended [] cFetch cDecode cSearch ⟨[]⟩ cListingPage
    cRawOffer cEnrichedOffer (by decide) rfl (by decide) (by decide) (by decide)

end ApartmentParser
